import Mathlib

/-!
Verification of the misterabdul/http-server core against its specification.

The C sources are shallowly embedded: buffers become `List Char` (a C byte
string; reads past the logical length yield the NUL terminator, matching the
callers' invariant that the buffer is NUL-terminated at `length`), fallible
functions return `Option`, and the filesystem / TLS / socket layers are
abstracted as explicit parameters.
-/

set_option maxRecDepth 4000

/-- Read a byte of a NUL-terminated buffer: positions at or past the end of
the stored list read as the terminating NUL, as in the C callers where the
buffer is NUL-terminated at its logical length. -/
def readAt (b : List Char) (i : Nat) : Char := b.getD i '\x00'

/-- The C-string content of a buffer: everything before the first NUL. -/
def cstr (l : List Char) : List Char := l.takeWhile (fun c => c ≠ '\x00')

/-- `strncmp(a, b, n) == 0`: compare at most `n` characters, stopping at a
common NUL. -/
def cstrncmpEq : List Char → List Char → Nat → Bool
  | _, _, 0 => true
  | a, b, n + 1 =>
    let ca := a.headD '\x00'
    let cb := b.headD '\x00'
    if ca ≠ cb then false
    else if ca = '\x00' then true
    else cstrncmpEq a.tail b.tail n

/-- Does `hay` start with `needle` (plain list comparison)? -/
def listStarts : List Char → List Char → Bool
  | _, [] => true
  | [], _ :: _ => false
  | a :: as, c :: cs => a = c && listStarts as cs

/-- Does `hay` contain `needle` as a contiguous substring? -/
def containsSub (hay needle : List Char) : Bool :=
  (List.range (hay.length + 1)).any (fun i => listStarts (hay.drop i) needle)

/-! ## `src/lib/httpmsg.c`: the request parser (`message_parse`) -/

/-- A byte-range slice into the request buffer. -/
structure Slice where
  off : Nat
  len : Nat
deriving Repr, DecidableEq

/-- A parsed header: name and value slices (`header_t`). -/
structure HeaderSlices where
  name : Slice
  value : Slice
deriving Repr, DecidableEq

/-- The parsed message (`message_t`): slices into the caller's buffer. -/
structure Parsed where
  method : Slice
  target : Slice
  version : Slice
  headers : List HeaderSlices
  body : Option Slice
deriving Repr, DecidableEq

/-- `HEADER_BUFFER_SIZE` from httpmsg.h. -/
def HEADER_BUFFER_SIZE : Nat := 128

/-- The token delimiters of the request-line scans: `" \r\n\0"` with count 4. -/
def tokDelims : List Char := [' ', '\r', '\n', '\x00']

/-- One `for (...; _cursor < length; _cursor++) if (match(...)) break;` scan:
advance `c` until the current byte is a delimiter or the end of the buffer is
reached.  `fuel` only drives the recursion; every use passes `b.length`,
which always suffices. -/
def scanA (b : List Char) (ds : List Char) : Nat → Nat → Nat
  | c, 0 => c
  | c, fuel + 1 =>
    if c < b.length then
      if readAt b c ∈ ds then c else scanA b ds (c + 1) fuel
    else c

/-- The header-parsing loop of `message_parse` (lines 96-141 of httpmsg.c).
Returns the collected header slices and the final cursor.  `fuel` is the
remaining header capacity, initially `HEADER_BUFFER_SIZE`.  The delimiter
sets mirror the C `match` calls and their counts: `"\n\0"` (2), `":\n\0"`
(2, so only `:` and `\n`), `" \0"` (2), `"\r\n\0"` (2, so only `\r` and
`\n`). -/
def parseHeaders (b : List Char) : Nat → Nat → List HeaderSlices → List HeaderSlices × Nat
  | c, 0, acc => (acc, c)
  | c, fuel + 1, acc =>
    if c < b.length then
      if readAt b c = '\x00' then (acc, c)
      else
        let c1 := scanA b ['\n', '\x00'] c b.length
        if readAt b c1 = '\x00' then (acc, c1)
        else
          let c2 := scanA b [':', '\n'] (c1 + 1) b.length
          if readAt b c2 ≠ ':' then (acc, c2)
          else
            let name := Slice.mk (c1 + 1) (c2 - (c1 + 1))
            let c3 := scanA b [' ', '\x00'] (c2 + 1) b.length
            if readAt b c3 = '\x00' then (acc, c3)
            else
              let c4 := scanA b ['\r', '\n'] c3 b.length
              parseHeaders b c4 fuel (acc ++ [⟨name, Slice.mk c3 (c4 - c3)⟩])
    else (acc, c)

/-- `message_parse` from httpmsg.c: a single pass producing slices for
method, target, version, headers and body.  Returns `none` for the C `-1`. -/
def message_parse (b : List Char) : Option Parsed :=
  let n := b.length
  let c1 := scanA b tokDelims 0 n
  if readAt b c1 ≠ ' ' then none
  else
    let c2 := scanA b tokDelims (c1 + 1) n
    if readAt b c2 ≠ ' ' then none
    else
      let c3 := scanA b tokDelims (c2 + 1) n
      let hs := parseHeaders b c3 HEADER_BUFFER_SIZE []
      let body :=
        if hs.2 + 1 < n then some (Slice.mk (hs.2 + 1) (n - (hs.2 + 1))) else none
      some ⟨⟨0, c1⟩, ⟨c1 + 1, c2 - (c1 + 1)⟩, ⟨c2 + 1, c3 - (c2 + 1)⟩, hs.1, body⟩

/-! ## Parser lemmas -/

theorem readAt_of_ge (b : List Char) (i : Nat) (h : b.length ≤ i) :
    readAt b i = '\x00' := by
  simp [readAt, List.getD_eq_getElem?_getD, List.getElem?_eq_none h]

theorem lt_of_readAt_ne (b : List Char) (i : Nat) (h : readAt b i ≠ '\x00') :
    i < b.length := by
  by_contra hc
  exact h (readAt_of_ge b i (Nat.le_of_not_lt hc))

theorem scanA_ge (b ds : List Char) : ∀ fuel c, c ≤ scanA b ds c fuel := by
  intro fuel
  induction fuel with
  | zero => intro c; simp [scanA]
  | succ n ih =>
    intro c
    simp only [scanA]
    split
    · split
      · exact Nat.le_refl c
      · exact Nat.le_trans (Nat.le_succ c) (ih (c + 1))
    · exact Nat.le_refl c

theorem scanA_le (b ds : List Char) :
    ∀ fuel c, c ≤ b.length → scanA b ds c fuel ≤ b.length := by
  intro fuel
  induction fuel with
  | zero => intro c hc; simpa [scanA] using hc
  | succ n ih =>
    intro c hc
    simp only [scanA]
    split
    · split
      · exact hc
      · exact ih (c + 1) (by omega)
    · exact hc

theorem scanA_stop (b ds : List Char) :
    ∀ fuel c, c ≤ b.length → b.length ≤ c + fuel →
      scanA b ds c fuel = b.length ∨ readAt b (scanA b ds c fuel) ∈ ds := by
  intro fuel
  induction fuel with
  | zero => intro c h1 h2; left; simp only [scanA]; omega
  | succ n ih =>
    intro c h1 h2
    simp only [scanA]
    split
    · split
      · right; assumption
      · exact ih (c + 1) (by omega) (by omega)
    · left; omega

theorem scanA_min (b ds : List Char) :
    ∀ fuel c j, c ≤ j → (j = b.length ∨ readAt b j ∈ ds) →
      scanA b ds c fuel ≤ j := by
  intro fuel
  induction fuel with
  | zero => intro c j hc _; simpa [scanA] using hc
  | succ n ih =>
    intro c j hc hj
    simp only [scanA]
    split
    · split
      · exact hc
      · refine ih (c + 1) j ?_ hj
        rcases Nat.lt_or_ge c j with h | h
        · omega
        · have hcj : c = j := by omega
          subst hcj
          rcases hj with h | h
          · omega
          · simp_all
    · exact hc

theorem scanA_skipped (b ds : List Char) :
    ∀ fuel c j, c ≤ j → j < scanA b ds c fuel → readAt b j ∉ ds := by
  intro fuel
  induction fuel with
  | zero => intro c j hc hj; simp only [scanA] at hj; omega
  | succ n ih =>
    intro c j hc hj
    simp only [scanA] at hj
    by_cases h1 : c < b.length
    · simp only [h1, if_true] at hj
      by_cases h2 : readAt b c ∈ ds
      · simp [h2] at hj; omega
      · simp only [h2, if_false] at hj
        rcases Nat.lt_or_ge c j with h | h
        · exact ih (c + 1) j (by omega) hj
        · have : c = j := by omega
          subst this; exact h2
    · simp [h1] at hj; omega

theorem readAt_lt (b : List Char) (i : Nat) (h : i < b.length) :
    b[i]? = some (readAt b i) := by
  simp [readAt, List.getD_eq_getElem?_getD, List.getElem?_eq_getElem h]

/-- A slice lies entirely within the buffer. -/
def sliceOk (b : List Char) (s : Slice) : Prop := s.off + s.len ≤ b.length

theorem parseHeaders_sound (b : List Char) :
    ∀ fuel c acc, c ≤ b.length →
      (∀ h ∈ acc, sliceOk b h.name ∧ sliceOk b h.value) →
      (∀ h ∈ (parseHeaders b c fuel acc).1, sliceOk b h.name ∧ sliceOk b h.value) ∧
        (parseHeaders b c fuel acc).2 ≤ b.length := by
  intro fuel
  induction fuel with
  | zero =>
    intro c acc hc hacc
    simpa [parseHeaders] using ⟨hacc, hc⟩
  | succ n ih =>
    intro c acc hc hacc
    simp only [parseHeaders]
    split
    case isFalse => exact ⟨hacc, hc⟩
    case isTrue hlt =>
      split
      case isTrue => exact ⟨hacc, hc⟩
      case isFalse h0 =>
        have hc1ge : c ≤ scanA b ['\n', '\x00'] c b.length := scanA_ge b _ _ c
        have hc1le : scanA b ['\n', '\x00'] c b.length ≤ b.length :=
          scanA_le b _ _ c hc
        split
        case isTrue => exact ⟨hacc, hc1le⟩
        case isFalse h1 =>
          have hc1lt : scanA b ['\n', '\x00'] c b.length < b.length :=
            lt_of_readAt_ne b _ h1
          have hc2ge := scanA_ge b [':', '\n'] b.length (scanA b ['\n', '\x00'] c b.length + 1)
          have hc2le : scanA b [':', '\n'] (scanA b ['\n', '\x00'] c b.length + 1) b.length ≤ b.length :=
            scanA_le b _ _ _ (by omega)
          split
          case isTrue => exact ⟨hacc, hc2le⟩
          case isFalse h2 =>
            have h2' := not_ne_iff.mp h2
            have hc2lt : scanA b [':', '\n'] (scanA b ['\n', '\x00'] c b.length + 1) b.length < b.length :=
              lt_of_readAt_ne b _ (by rw [h2']; decide)
            have hc3ge := scanA_ge b [' ', '\x00'] b.length
              (scanA b [':', '\n'] (scanA b ['\n', '\x00'] c b.length + 1) b.length + 1)
            have hc3le : scanA b [' ', '\x00']
                (scanA b [':', '\n'] (scanA b ['\n', '\x00'] c b.length + 1) b.length + 1) b.length ≤ b.length :=
              scanA_le b _ _ _ (by omega)
            split
            case isTrue => exact ⟨hacc, hc3le⟩
            case isFalse h3 =>
              have hc4ge := scanA_ge b ['\r', '\n'] b.length
                (scanA b [' ', '\x00']
                  (scanA b [':', '\n'] (scanA b ['\n', '\x00'] c b.length + 1) b.length + 1) b.length)
              have hc4le : scanA b ['\r', '\n']
                  (scanA b [' ', '\x00']
                    (scanA b [':', '\n'] (scanA b ['\n', '\x00'] c b.length + 1) b.length + 1) b.length) b.length ≤ b.length :=
                scanA_le b _ _ _ hc3le
              refine ih _ _ hc4le ?_
              intro h hmem
              rcases List.mem_append.mp hmem with hmem | hmem
              · exact hacc h hmem
              · rcases List.mem_singleton.mp hmem with rfl
                refine ⟨?_, ?_⟩
                · show _ + _ ≤ _
                  simp only []
                  omega
                · show _ + _ ≤ _
                  simp only []
                  omega

theorem count_ge_two_of_two_positions (l : List Char) (i j : Nat) (hij : i < j)
    (hi : l[i]? = some ' ') (hj : l[j]? = some ' ') : 2 ≤ l.count ' ' := by
  have h1 : ' ' ∈ l.take j :=
    List.getElem?_mem (by rw [List.getElem?_take_of_lt hij]; exact hi)
  have h2 : ' ' ∈ l.drop j := by
    have h20 : (l.drop j)[0]? = some ' ' := by simpa [List.getElem?_drop] using hj
    exact List.getElem?_mem h20
  have hc1 := List.one_le_count_iff.mpr h1
  have hc2 := List.one_le_count_iff.mpr h2
  have : l.count ' ' = (l.take j).count ' ' + (l.drop j).count ' ' := by
    rw [← List.count_append, List.take_append_drop]
  omega

/-- The request line: the bytes before the first CR, LF or NUL. -/
def requestLine (b : List Char) : List Char :=
  b.take (scanA b ['\r', '\n', '\x00'] 0 b.length)

theorem message_parse_some_spaces (b : List Char) (p : Parsed)
    (h : message_parse b = some p) :
    readAt b (scanA b tokDelims 0 b.length) = ' ' ∧
      readAt b (scanA b tokDelims (scanA b tokDelims 0 b.length + 1) b.length) = ' ' := by
  simp only [message_parse] at h
  split at h
  · exact absurd h (by simp)
  · rename_i h1
    split at h
    · exact absurd h (by simp)
    · rename_i h2
      exact ⟨not_ne_iff.mp h1, not_ne_iff.mp h2⟩

theorem requestLine_spaces (b : List Char) (p : Parsed)
    (h : message_parse b = some p) : 2 ≤ (requestLine b).count ' ' := by
  obtain ⟨hs1, hs2⟩ := message_parse_some_spaces b p h
  set c1 := scanA b tokDelims 0 b.length with hc1def
  set c2 := scanA b tokDelims (c1 + 1) b.length with hc2def
  set L := scanA b ['\r', '\n', '\x00'] 0 b.length with hLdef
  have hc1lt : c1 < b.length := lt_of_readAt_ne b c1 (by rw [hs1]; decide)
  have hc2lt : c2 < b.length := lt_of_readAt_ne b c2 (by rw [hs2]; decide)
  have hc12 : c1 + 1 ≤ c2 := scanA_ge b tokDelims b.length (c1 + 1)
  have hLle : L ≤ b.length := scanA_le b _ b.length 0 (Nat.zero_le _)
  -- the request-line scan cannot stop at or before c2
  have hstop := scanA_stop b ['\r', '\n', '\x00'] b.length 0 (Nat.zero_le _) (by omega)
  rw [← hLdef] at hstop
  have hc2L : c2 < L := by
    rcases Nat.lt_or_ge c2 L with h | h
    · exact h
    · exfalso
      rcases hstop with hL | hL
      · omega
      · have hL' : readAt b L = '\r' ∨ readAt b L = '\n' ∨ readAt b L = '\x00' := by
          simpa using hL
        have htok : readAt b L ∈ tokDelims := by
          rcases hL' with h | h | h <;> simp [tokDelims, h]
        rcases Nat.lt_or_ge L c1 with hlt | hge
        · exact scanA_skipped b tokDelims b.length 0 L (Nat.zero_le _) hlt htok
        · rcases Nat.eq_or_lt_of_le hge with heq | hlt
          · rw [heq] at hs1
            rcases hL' with h | h | h <;> rw [hs1] at h <;> exact absurd h (by decide)
          · rcases Nat.lt_or_ge L c2 with hlt2 | hge2
            · exact scanA_skipped b tokDelims b.length (c1 + 1) L (by omega) hlt2 htok
            · have hLc2 : L = c2 := by omega
              rw [hLc2] at hL'
              rcases hL' with h | h | h <;> rw [hs2] at h <;> exact absurd h (by decide)
  have hc1L : c1 < L := by omega
  refine count_ge_two_of_two_positions (requestLine b) c1 c2 (by omega) ?_ ?_
  · rw [requestLine, ← hLdef, List.getElem?_take_of_lt hc1L, readAt_lt b c1 hc1lt, hs1]
  · rw [requestLine, ← hLdef, List.getElem?_take_of_lt hc2L, readAt_lt b c2 hc2lt, hs2]

/-- C2: for every byte string `b`, `message_parse b` either fails or returns
slices that lie entirely within `b` (offset + length never exceeds the
buffer length), and a request line with fewer than three space-separated
tokens (fewer than two spaces before the first CR/LF/NUL) always yields the
error result. -/
theorem c2_parser_totality :
    (∀ (b : List Char) (p : Parsed), message_parse b = some p →
      sliceOk b p.method ∧ sliceOk b p.target ∧ sliceOk b p.version ∧
        (∀ h ∈ p.headers, sliceOk b h.name ∧ sliceOk b h.value) ∧
        (∀ s, p.body = some s → sliceOk b s))
    ∧ (∀ b : List Char, (requestLine b).count ' ' < 2 → message_parse b = none) := by
  constructor
  · intro b p h
    simp only [message_parse] at h
    split at h
    · exact absurd h (by simp)
    · rename_i h1
      split at h
      · exact absurd h (by simp)
      · rename_i h2
        obtain rfl := (Option.some.inj h).symm
        set c1 := scanA b tokDelims 0 b.length with hc1def
        set c2 := scanA b tokDelims (c1 + 1) b.length with hc2def
        set c3 := scanA b tokDelims (c2 + 1) b.length with hc3def
        have hs1 : readAt b c1 = ' ' := not_ne_iff.mp h1
        have hs2 : readAt b c2 = ' ' := not_ne_iff.mp h2
        have hc1lt : c1 < b.length := lt_of_readAt_ne b c1 (by rw [hs1]; decide)
        have hc2lt : c2 < b.length := lt_of_readAt_ne b c2 (by rw [hs2]; decide)
        have hc12 : c1 + 1 ≤ c2 := scanA_ge b tokDelims b.length (c1 + 1)
        have hc23 : c2 + 1 ≤ c3 := scanA_ge b tokDelims b.length (c2 + 1)
        have hc3le : c3 ≤ b.length := scanA_le b tokDelims b.length (c2 + 1) (by omega)
        have hhd := parseHeaders_sound b HEADER_BUFFER_SIZE c3 [] hc3le (by simp)
        refine ⟨?_, ?_, ?_, ?_, ?_⟩
        · show 0 + c1 ≤ b.length
          omega
        · show (c1 + 1) + (c2 - (c1 + 1)) ≤ b.length
          omega
        · show (c2 + 1) + (c3 - (c2 + 1)) ≤ b.length
          omega
        · exact hhd.1
        · intro s hs
          simp only at hs
          split at hs
          · rename_i hlt
            obtain rfl := (Option.some.inj hs).symm
            show _ + _ ≤ _
            simp only
            omega
          · exact absurd hs (by simp)
  · intro b hcount
    by_contra hne
    rcases Option.ne_none_iff_exists'.mp hne with ⟨p, hp⟩
    exact absurd (requestLine_spaces b p hp) (by omega)

/-- Witness for C2 at a concrete input: a request line with no space at all
is rejected by the parser. -/
theorem c2_parser_totality_witness :
    message_parse (String.toList "GETALONE\r\n\r\n") = none :=
  c2_parser_totality.2 (String.toList "GETALONE\r\n\r\n") (by decide)

/-! ## `src/lib/httpmsg.c`: the path resolver (`message_resolve_path`)

The filesystem is abstracted: `realpathFn` is `realpath` (returning `none`
for failure), `accessOk` is `access(path, F_OK) == 0`, `statKind` is
`stat` (`none` = failure, `some true` = regular file, `some false` =
directory or other), `openStat` is `open` followed by `fstat` (`none` =
either failed, `some (size, mtime)` otherwise), `mimeOf` is the external
`mime_get` table. -/

structure Fs where
  realpathFn : List Char → Option (List Char)
  accessOk : List Char → Bool
  statKind : List Char → Option Bool
  openStat : List Char → Option (Nat × Nat)
  mimeOf : List Char → String

/-- `hex2int` from httpmsg.c. -/
def hex2int (c : Char) : Option Nat :=
  if '0' ≤ c ∧ c ≤ '9' then some (c.toNat - '0'.toNat)
  else if 'a' ≤ c ∧ c ≤ 'f' then some (c.toNat - 'a'.toNat + 10)
  else if 'A' ≤ c ∧ c ≤ 'F' then some (c.toNat - 'A'.toNat + 10)
  else none

/-- `decode_url` from httpmsg.c: in-place percent-decoding of the
NUL-terminated string (`+` → space, `%HH` → byte, malformed `%` → error).
The C loop stops at the first NUL already present in the buffer; decoded
`%00` bytes are written through and counted. -/
def decode_url : List Char → Option (List Char)
  | [] => some []
  | c :: rest =>
    if c = '\x00' then some []
    else if c = '+' then (decode_url rest).map (fun d => ' ' :: d)
    else if c = '%' then
      match rest with
      | c1 :: c2 :: rest' =>
        match hex2int c1, hex2int c2 with
        | some h1, some h2 =>
          (decode_url rest').map (fun d => Char.ofNat (h1 * 16 + h2) :: d)
        | _, _ => none
      | _ => none
    else (decode_url rest).map (fun d => c :: d)

/-- One `strncat(buf, src, n)` on a buffer of `size` bytes: append at the
current C-string end, copying at most `n` characters plus a terminating
NUL.  The second component reports whether a byte (including the NUL
terminator) was written at or past offset `size`, i.e. beyond the buffer. -/
def strncatApp (buf src : List Char) (n size : Nat) : List Char × Bool :=
  let base := cstr buf
  let app := src.take n
  (base ++ app, decide (size < base.length + app.length + 1))

/-- The string literal "index.html". -/
def strIndexHtml : List Char := String.toList "index.html"

/-- The string literal "/index.html". -/
def strSlashIndexHtml : List Char := String.toList "/index.html"

/-- `check_path` from httpmsg.c: resolve with `realpath` and require that
the result matches the first `rootLen` bytes of `root` (`strncmp`) and that
the byte at offset `rootLen` is `/` or NUL. -/
def check_path (fs : Fs) (path root : List Char) (rootLen : Nat) : Bool :=
  match fs.realpathFn path with
  | none => false
  | some r =>
    cstrncmpEq r root rootLen &&
      (readAt r rootLen = '/' || readAt r rootLen = '\x00')

/-- Lines 164-187 of `message_resolve_path`: strip the query, build
`root || target` with `snprintf` (truncating the content at `size - 1`),
percent-decode, and append `index.html` when the decoded string is empty or
ends in `/`.  Returns the buffer's C-string content, the stale `_length`
variable (the decoded length, not updated by the append), and the overflow
flag of the append; `none` on a decode error. -/
def resolve_built (root target : List Char) (size : Nat) :
    Option (List Char × Nat × Bool) :=
  let tgtQ := (target.takeWhile (fun c => c ≠ '?')).takeWhile (fun c => c ≠ '\x00')
  let copied := (root ++ tgtQ).take (size - 1)
  match decode_url copied with
  | none => none
  | some d =>
    if d.length = 0 ∨ d.getLast? = some '/' then
      let r := strncatApp d strIndexHtml (size - d.length) size
      some (r.1, d.length, r.2)
    else
      some (cstr d, d.length, false)

/-- `message_resolve_path` from httpmsg.c.  The first component is the
produced file path on success (`none` for the C `-1`); the second reports
whether any `strncat` wrote past the `size`-byte buffer (the C source has
no such flag — it simply performs the out-of-bounds write). -/
def message_resolve_path (fs : Fs) (root target : List Char)
    (rootLen size : Nat) : Option (List Char) × Bool :=
  match resolve_built root target size with
  | none => (none, false)
  | some (p1, len, ov1) =>
    if check_path fs p1 root rootLen = false then (none, ov1)
    else if fs.accessOk p1 = false then (none, ov1)
    else
      match fs.statKind p1 with
      | none => (none, ov1)
      | some true => (some p1, ov1)
      | some false =>
        let r2 := strncatApp p1 strSlashIndexHtml (size - len) size
        (some r2.1, ov1 || r2.2)

/-- The path-safety predicate of the spec: `r` starts with the absolute
root and the byte after that prefix is `/` or the end of the string. -/
def insideRoot (root r : List Char) : Prop :=
  r.take root.length = root ∧ (readAt r root.length = '/' ∨ r.length = root.length)

instance (root r : List Char) : Decidable (insideRoot root r) := by
  unfold insideRoot
  infer_instance

/-! ## Path-safety lemmas (C1) -/

theorem cstr_of_nulfree (l : List Char) (h : '\x00' ∉ l) : cstr l = l := by
  refine List.takeWhile_eq_self_iff.mpr ?_
  intro a ha
  simp only [decide_eq_true_eq]
  intro he
  exact h (he ▸ ha)

theorem cstr_nulfree (l : List Char) : '\x00' ∉ cstr l := by
  intro hmem
  simpa using List.mem_takeWhile_imp hmem

theorem cstrncmpEq_eq_take :
    ∀ (n : Nat) (a b : List Char), '\x00' ∉ b → b.length = n →
      (cstrncmpEq a b n = true ↔ a.take n = b) := by
  intro n
  induction n with
  | zero =>
    intro a b _ hlen
    have : b = [] := List.length_eq_zero.mp hlen
    subst this
    simp [cstrncmpEq]
  | succ n ih =>
    intro a b hb hlen
    match b with
    | [] => simp at hlen
    | b0 :: bs =>
      have hb0 : b0 ≠ '\x00' := fun he => hb (he ▸ List.mem_cons_self b0 bs)
      match a with
      | [] =>
        simp only [cstrncmpEq, List.headD_nil, List.take_nil]
        rw [if_pos (fun he => hb0 he.symm)]
        simp
      | a0 :: as =>
        simp only [cstrncmpEq, List.headD_cons, List.tail_cons]
        by_cases hab : a0 = b0
        · subst hab
          rw [if_neg (by simp)]
          rw [if_neg (by simpa using hb0)]
          rw [ih as bs (fun hm => hb (List.mem_cons_of_mem _ hm)) (by simpa using hlen)]
          simp
        · rw [if_pos (by simpa using hab)]
          simp [hab]

theorem length_le_of_readAt_nul (r : List Char) (i : Nat) (hnf : '\x00' ∉ r)
    (h : readAt r i = '\x00') : r.length ≤ i := by
  by_contra hc
  have hi : i < r.length := Nat.lt_of_not_le hc
  have hri : r[i] = readAt r i :=
    Option.some.inj ((List.getElem?_eq_getElem hi).symm.trans (readAt_lt r i hi))
  rw [h] at hri
  exact hnf (hri ▸ List.getElem_mem hi)

theorem check_path_insideRoot (fs : Fs) (p root : List Char)
    (hnul : '\x00' ∉ root)
    (hrp : ∀ q r, fs.realpathFn q = some r → '\x00' ∉ r)
    (h : check_path fs p root root.length = true) :
    ∃ r, fs.realpathFn p = some r ∧ insideRoot root r := by
  unfold check_path at h
  cases heq : fs.realpathFn p with
  | none => rw [heq] at h; cases h
  | some r =>
    rw [heq] at h
    rcases Bool.and_eq_true_iff.mp h with ⟨h1, h2⟩
    have htake : r.take root.length = root :=
      (cstrncmpEq_eq_take root.length r root hnul rfl).mp h1
    refine ⟨r, rfl, htake, ?_⟩
    rcases Bool.or_eq_true_iff.mp h2 with h3 | h3
    · left
      exact of_decide_eq_true h3
    · right
      have hnz : readAt r root.length = '\x00' := of_decide_eq_true h3
      have hle : r.length ≤ root.length :=
        length_le_of_readAt_nul r root.length (hrp p r heq) hnz
      have hge : root.length ≤ r.length := by
        have := congrArg List.length htake
        simp [List.length_take] at this
        omega
      omega

theorem resolve_built_nulfree (root target : List Char) (size : Nat)
    (p1 : List Char) (len : Nat) (ov : Bool)
    (h : resolve_built root target size = some (p1, len, ov)) : '\x00' ∉ p1 := by
  simp only [resolve_built] at h
  split at h
  · exact absurd h (by simp)
  · rename_i d heq
    split at h
    · simp only [strncatApp, Option.some.injEq, Prod.mk.injEq] at h
      obtain ⟨h1, -, -⟩ := h
      subst h1
      intro hmem
      rcases List.mem_append.mp hmem with hm | hm
      · exact cstr_nulfree d hm
      · have := List.mem_of_mem_take hm
        simp [strIndexHtml] at this
    · simp only [Option.some.injEq, Prod.mk.injEq] at h
      obtain ⟨h1, -, -⟩ := h
      subst h1
      exact cstr_nulfree d

/-- C1: if `message_resolve_path` succeeds then the absolute resolution
of the produced file path stays inside the absolute root (the byte after
the root prefix is `/` or the end of the string), and a built path whose
resolution escapes the root is rejected with the error sentinel.  The
filesystem hypotheses say that `realpath` outputs are NUL-free C strings
and that resolutions of extensions of an in-root path stay in-root (the
root string itself is the `realpath` of the configured root directory, as
established by `config_get`). -/
theorem c1_path_safety (fs : Fs) (root target : List Char) (size : Nat)
    (hnul : '\x00' ∉ root)
    (hrp : ∀ q r, fs.realpathFn q = some r → '\x00' ∉ r)
    (hdesc : ∀ p r suf r', fs.realpathFn p = some r → insideRoot root r →
      fs.realpathFn (p ++ suf) = some r' → insideRoot root r') :
    (∀ out ov, message_resolve_path fs root target root.length size = (some out, ov) →
      ∀ r, fs.realpathFn out = some r → insideRoot root r) ∧
    (∀ p1 len ov1, resolve_built root target size = some (p1, len, ov1) →
      (∀ r, fs.realpathFn p1 = some r → ¬ insideRoot root r) →
      (message_resolve_path fs root target root.length size).1 = none) := by
  constructor
  · intro out ov hout r hr
    simp only [message_resolve_path] at hout
    split at hout
    · exact absurd hout (by simp)
    · rename_i p1 len ov1 hrb
      split at hout
      · exact absurd hout (by simp)
      · rename_i hchk
        have hchk' : check_path fs p1 root root.length = true := by
          revert hchk
          cases check_path fs p1 root root.length <;> simp
        split at hout
        · exact absurd hout (by simp)
        · split at hout
          · exact absurd hout (by simp)
          · simp only [Prod.mk.injEq, Option.some.injEq] at hout
            obtain ⟨h1, -⟩ := hout
            subst h1
            obtain ⟨r0, hr0, hins⟩ := check_path_insideRoot fs p1 root hnul hrp hchk'
            rw [hr0] at hr
            exact (Option.some.inj hr) ▸ hins
          · simp only [strncatApp, Prod.mk.injEq, Option.some.injEq] at hout
            obtain ⟨h1, -⟩ := hout
            subst h1
            obtain ⟨r0, hr0, hins⟩ := check_path_insideRoot fs p1 root hnul hrp hchk'
            have hnf : '\x00' ∉ p1 :=
              resolve_built_nulfree root target size p1 len ov1 hrb
            rw [cstr_of_nulfree p1 hnf] at hr
            exact hdesc p1 r0 _ r hr0 hins hr
  · intro p1 len ov1 hrb hesc
    simp only [message_resolve_path, hrb]
    cases hcb : check_path fs p1 root root.length with
    | false => simp [hcb]
    | true =>
      exfalso
      obtain ⟨r0, hr0, hins⟩ := check_path_insideRoot fs p1 root hnul hrp hcb
      exact hesc r0 hr0 hins

/-- A concrete filesystem for the C1 witness: every path resolves to the
root itself, which is trivially in-root. -/
def fsC1 : Fs :=
  ⟨fun _ => some (String.toList "/r"), fun _ => true, fun _ => some true,
    fun _ => some (1, 1), fun _ => "text/html"⟩

/-- Witness for C1 at a concrete input: resolving target "/d" under root
"/r" succeeds and the resolution of the produced path is inside the root. -/
theorem c1_path_safety_witness : insideRoot (String.toList "/r") (String.toList "/r") :=
  (c1_path_safety fsC1 (String.toList "/r") (String.toList "/d") 64
    (by decide)
    (by
      intro q r h
      simp only [fsC1, Option.some.injEq] at h
      subst h
      decide)
    (by
      intro p r suf r' h1 h2 h3
      simp only [fsC1, Option.some.injEq] at h1 h3
      subst h1
      subst h3
      exact h2)).1
    (String.toList "/r/d") false rfl (String.toList "/r") rfl

/-- A concrete filesystem for C7: `/r/d` is an in-root directory. -/
def fsC7 : Fs :=
  ⟨fun _ => some (String.toList "/r/d"), fun _ => true, fun _ => some false,
    fun _ => some (1, 1), fun _ => "text/html"⟩

/-- A concrete filesystem for C7: `/r/i` is an in-root regular file. -/
def fsC7b : Fs :=
  ⟨fun _ => some (String.toList "/r/i"), fun _ => true, fun _ => some true,
    fun _ => some (1, 1), fun _ => "text/html"⟩

/-- C7 (code bug): both `strncat` appends of `message_resolve_path` can
write past the caller's `size`-byte path buffer while the function still
returns success.  First conjunct: root "/r", target "/d", size 5, `/r/d` a
directory — the `/index.html` append places its terminating NUL at offset
5, one byte past the buffer, because its budget `size - _length` uses the
stale pre-append length; the call still succeeds.  Second conjunct: root
"/r", target "/", size 4 — the `index.html` append writes its NUL at
offset 4, past the buffer, and the call still succeeds.  The overflow flag
(second component `true`) records the out-of-bounds write; the claim (and
spec section 9(b)) require the append to stay within `size` and the
function to return the error sentinel instead. -/
theorem c7_append_overflow :
    message_resolve_path fsC7 (String.toList "/r") (String.toList "/d") 2 5 =
      (some (String.toList "/r/d/"), true) ∧
    message_resolve_path fsC7b (String.toList "/r") (String.toList "/") 2 4 =
      (some (String.toList "/r/i"), true) := by
  constructor
  · rfl
  · rfl

/-! ## `src/core/http.c`: response building and request dispatch

`get_time` formats the *current* time with `strftime` into a buffer of the
given size (returning the empty string when the RFC-1123 text plus NUL
would not fit, as `strftime` then returns 0); the wall-clock formatting
itself is abstracted as a parameter `fmt`. -/

def HEAD_BUFFER_SIZE : Nat := 512

def BODY_BUFFER_SIZE : Nat := 2048

def PATH_BUFFER_SIZE : Nat := 1024

def TIME_BUFFER_SIZE : Nat := 30

def g_server_name : String := "misterabdul-http-server"

def g_html_400 : String :=
  "<!DOCTYPE html>\n<html>\n  <head><title>Bad Request</title></head>\n  <body><div><h1>Bad request.</h1></div></body>\n</html>\n"

def g_html_404 : String :=
  "<!DOCTYPE html>\n<html>\n  <head><title>Not Found</title></head>\n  <body><div><h1>Not found.</h1></div></body>\n</html>\n"

def g_html_405 : String :=
  "<!DOCTYPE html>\n<html>\n  <head><title>Method Not Allowed</title></head>\n  <body><div><h1>Method not allowed.</h1></div></body>\n</html>\n"

def g_html_500 : String :=
  "<!DOCTYPE html>\n<html>\n  <head><title>Internal Server Error</title></head>\n  <body><div><h1>Internal server error.</h1></div></body>\n</html>\n"

/-- `snprintf` into a `size`-byte buffer: the stored content is truncated
at `size - 1` characters; the returned length is the untruncated length
(which the C code stores in `head_length`/`body_length`). -/
def snprintfBuf (size : Nat) (s : String) : List Char × Nat :=
  (s.toList.take (size - 1), s.length)

/-- `get_time` from http.c: `strftime` of the current time `now` into a
`size`-byte buffer; empty when the formatted text plus NUL exceeds `size`. -/
def get_time (fmt : Nat → String) (now : Nat) (size : Nat) : String :=
  if (fmt now).length + 1 ≤ size then fmt now else ""

/-- `response_type_t`. -/
inductive RType where
  | headOnly
  | str
  | file
deriving Repr, DecidableEq

/-- `status_t` from http.c. -/
inductive Status where
  | badRequest
  | notFound
  | notAllowed
  | err
deriving Repr, DecidableEq

/-- The response under construction (`response_t` plus `should_close` and
the `http_process` return value). -/
structure Resp where
  rtype : RType
  head : List Char
  headLen : Nat
  body : List Char
  bodyLen : Nat
  fileSize : Nat
  shouldClose : Bool
  ret : Int
deriving Repr, DecidableEq

/-- `build_head_error` from http.c: note that the 400 and 500 heads carry
`Connection: close` while the 404 and 405 heads carry
`Connection: keep-alive` (http.c lines 352-383). -/
def build_head_error (fmt : Nat → String) (now : Nat) (status : Status) :
    List Char × Nat :=
  let date := get_time fmt now TIME_BUFFER_SIZE
  let s :=
    match status with
    | .err =>
      "HTTP/1.1 500 INTERNAL SERVER ERROR\r\nCache-Control: no-store, private\r\nConnection: close\r\nContent-Length: " ++
        toString g_html_500.length ++ "\r\nContent-Type: text/html; charset=UTF-8\r\nDate: " ++
        date ++ "\r\nServer: " ++ g_server_name ++ "\r\n\r\n"
    | .badRequest =>
      "HTTP/1.1 400 BAD REQUEST\r\nCache-Control: no-store, private\r\nConnection: close\r\nContent-Length: " ++
        toString g_html_400.length ++ "\r\nContent-Type: text/html; charset=UTF-8\r\nDate: " ++
        date ++ "\r\nServer: " ++ g_server_name ++ "\r\n\r\n"
    | .notFound =>
      "HTTP/1.1 404 NOT FOUND\r\nCache-Control: no-store, private\r\nConnection: keep-alive\r\nContent-Length: " ++
        toString g_html_404.length ++ "\r\nContent-Type: text/html; charset=UTF-8\r\nDate: " ++
        date ++ "\r\nServer: " ++ g_server_name ++ "\r\n\r\n"
    | .notAllowed =>
      "HTTP/1.1 405 METHOD NOT ALLOWED\r\nCache-Control: no-store, private\r\nConnection: keep-alive\r\nContent-Length: " ++
        toString g_html_405.length ++ "\r\nContent-Type: text/html; charset=UTF-8\r\nDate: " ++
        date ++ "\r\nServer: " ++ g_server_name ++ "\r\n\r\n"
  snprintfBuf HEAD_BUFFER_SIZE s

/-- `build_body_error` from http.c. -/
def build_body_error (status : Status) : List Char × Nat :=
  let s :=
    match status with
    | .err => g_html_500
    | .badRequest => g_html_400
    | .notFound => g_html_404
    | .notAllowed => g_html_405
  snprintfBuf BODY_BUFFER_SIZE s

/-- `build_head_options` from http.c. -/
def build_head_options (fmt : Nat → String) (now : Nat) : List Char × Nat :=
  let date := get_time fmt now TIME_BUFFER_SIZE
  snprintfBuf HEAD_BUFFER_SIZE
    ("HTTP/1.1 204 NO CONTENT\r\nAccess-Control-Allow-Methods: GET, HEAD, OPTIONS\r\nAllow: GET, HEAD, OPTIONS\r\nConnection: keep-alive\r\nContent-Length: 0\r\nDate: " ++
      date ++ "\r\nServer: " ++ g_server_name ++ "\r\n\r\n")

/-- `build_head_file` from http.c.  The C source calls
`get_time(_last_modified, response->file_stat.st_mtime)`: the file's mtime
is passed as the buffer SIZE and the formatted value is the current time
`now` (http.c line 258). -/
def build_head_file (fmt : Nat → String) (now : Nat) (fileSize mtime : Nat)
    (mime : String) : List Char × Nat :=
  let date := get_time fmt now TIME_BUFFER_SIZE
  let lastModified := get_time fmt now mtime
  snprintfBuf HEAD_BUFFER_SIZE
    ("HTTP/1.1 200 OK\r\nAccept-Ranges: none\r\nCache-Control: public, max-age=86400\r\nConnection: keep-alive\r\nContent-Length: " ++
      toString fileSize ++ "\r\nContent-Type: " ++ mime ++ "\r\nDate: " ++ date ++
      "\r\nLast-Modified: " ++ lastModified ++ "\r\nServer: " ++ g_server_name ++
      "\r\n\r\n")

/-- The bytes of a slice of the request buffer. -/
def sliceBytes (b : List Char) (s : Slice) : List Char :=
  (b.drop s.off).take s.len

/-- An error response as assembled by `build_head_error`/`build_body_error`.
The response type stays `RESPONSE_TYPE_STRING` (the value set by
`http_init`). -/
def respError (fmt : Nat → String) (now : Nat) (status : Status)
    (close : Bool) (ret : Int) : Resp :=
  { rtype := .str
    head := (build_head_error fmt now status).1
    headLen := (build_head_error fmt now status).2
    body := (build_body_error status).1
    bodyLen := (build_body_error status).2
    fileSize := 0
    shouldClose := close
    ret := ret }

/-- `process_request` from http.c: resolve the target under the root, then
`open` + `fstat` (any failure → 404 with keep-alive and `should_close`
left unset), else a 200 `File` response. -/
def process_request (fs : Fs) (fmt : Nat → String) (now : Nat)
    (root : List Char) (rootLen : Nat) (target : List Char) : Resp :=
  match (message_resolve_path fs root target rootLen PATH_BUFFER_SIZE).1 with
  | none => respError fmt now .notFound false 0
  | some path =>
    match fs.openStat path with
    | none => respError fmt now .notFound false 0
    | some (fsize, mtime) =>
      { rtype := .file
        head := (build_head_file fmt now fsize mtime (fs.mimeOf path)).1
        headLen := (build_head_file fmt now fsize mtime (fs.mimeOf path)).2
        body := []
        bodyLen := 0
        fileSize := fsize
        shouldClose := false
        ret := 0 }

/-- The `strncmp(_req->method, s, strlen s) == 0` dispatch test of
`http_process`: it compares `strlen s` raw bytes of the buffer starting at
the method offset, regardless of the parsed method length. -/
def methodCmp (b : List Char) (off : Nat) (s : String) : Bool :=
  cstrncmpEq (b.drop off) s.toList s.length

/-- `http_process` from http.c: parse, then dispatch on the method bytes. -/
def http_process (fs : Fs) (fmt : Nat → String) (now : Nat)
    (root : List Char) (rootLen : Nat) (b : List Char) : Resp :=
  match message_parse b with
  | none => respError fmt now .badRequest true (-1)
  | some m =>
    if methodCmp b m.method.off "GET" then
      process_request fs fmt now root rootLen (sliceBytes b m.target)
    else if methodCmp b m.method.off "HEAD" then
      { process_request fs fmt now root rootLen (sliceBytes b m.target) with
          rtype := .headOnly }
    else if methodCmp b m.method.off "OPTIONS" then
      { rtype := .headOnly
        head := (build_head_options fmt now).1
        headLen := (build_head_options fmt now).2
        body := []
        bodyLen := 0
        fileSize := 0
        shouldClose := false
        ret := 0 }
    else respError fmt now .notAllowed true (-1)

/-- A concrete filesystem for C3: every path resolves to "/r" and is a
regular file of size 12 with mtime 50. -/
def fsC3 : Fs :=
  ⟨fun _ => some (String.toList "/r"), fun _ => true, fun _ => some true,
    fun _ => some (12, 50), fun _ => "text/html"⟩

/-- C3 counterexample: the request "GETX / HTTP/1.1" has method "GETX",
which is not exactly GET, HEAD or OPTIONS, yet `http_process` dispatches it
to the file handler (`strncmp` compares only the first 3 bytes): the result
is a 200 file response with `should_close` unset and return value 0, not
the claimed 405 with close. -/
theorem c3_counterexample :
    (http_process fsC3 toString 0 (String.toList "/r") 2
        (String.toList "GETX / HTTP/1.1\r\n\r\n")).rtype = RType.file ∧
    (http_process fsC3 toString 0 (String.toList "/r") 2
        (String.toList "GETX / HTTP/1.1\r\n\r\n")).shouldClose = false ∧
    (http_process fsC3 toString 0 (String.toList "/r") 2
        (String.toList "GETX / HTTP/1.1\r\n\r\n")).ret = 0 := by
  refine ⟨rfl, rfl, rfl⟩

/-- C3 amended: `http_process` matches methods by comparing the raw buffer
bytes at the method offset against the prefixes "GET", "HEAD" and
"OPTIONS" (`strncmp` with length 3/4/7).  Every parsed request whose
buffer does NOT begin, at the method position, with one of those three
prefixes gets the 405 response (canned 405 HTML body) with
`should_close` set and return value -1; only the three prefix matches are
dispatched to the file/OPTIONS handlers. -/
theorem c3_method_dispatch (fs : Fs) (fmt : Nat → String) (now : Nat)
    (root : List Char) (rootLen : Nat) (b : List Char) (m : Parsed)
    (hp : message_parse b = some m)
    (hg : methodCmp b m.method.off "GET" = false)
    (hh : methodCmp b m.method.off "HEAD" = false)
    (ho : methodCmp b m.method.off "OPTIONS" = false) :
    http_process fs fmt now root rootLen b =
      respError fmt now Status.notAllowed true (-1) := by
  simp [http_process, hp, hg, hh, ho]

/-- Witness for C3 (amended) at a concrete input: a DELETE request gets
the 405 close response. -/
theorem c3_method_dispatch_witness :
    http_process fsC3 toString 0 (String.toList "/r") 2
        (String.toList "DELETE / HTTP/1.1\r\n\r\n") =
      respError toString 0 Status.notAllowed true (-1) :=
  c3_method_dispatch fsC3 toString 0 (String.toList "/r") 2
    (String.toList "DELETE / HTTP/1.1\r\n\r\n")
    ⟨⟨0, 6⟩, ⟨7, 1⟩, ⟨9, 8⟩, [], none⟩ rfl rfl rfl rfl

/-- C4 (code bug): the 405 head built by `build_head_error` carries
`Connection: keep-alive`, not `Connection: close` (http.c line 374), even
though `http_process` marks `should_close` for 405 — a DELETE request
therefore gets a 405 response whose head says keep-alive while the server
closes the connection.  400 and 500 heads do carry `Connection: close`,
and the 404 and 200 heads carry `Connection: keep-alive`. -/
theorem c4_connection_header_bug :
    containsSub (build_head_error toString 0 Status.notAllowed).1
        (String.toList "Connection: keep-alive") = true ∧
    containsSub (build_head_error toString 0 Status.notAllowed).1
        (String.toList "Connection: close") = false ∧
    (http_process fsC3 toString 0 (String.toList "/r") 2
        (String.toList "DELETE / HTTP/1.1\r\n\r\n")).shouldClose = true ∧
    (http_process fsC3 toString 0 (String.toList "/r") 2
        (String.toList "DELETE / HTTP/1.1\r\n\r\n")).head =
      (build_head_error toString 0 Status.notAllowed).1 ∧
    containsSub (build_head_error toString 0 Status.badRequest).1
        (String.toList "Connection: close") = true ∧
    containsSub (build_head_error toString 0 Status.err).1
        (String.toList "Connection: close") = true ∧
    containsSub (build_head_error toString 0 Status.notFound).1
        (String.toList "Connection: keep-alive") = true ∧
    containsSub (build_head_file toString 0 12 50 "text/html").1
        (String.toList "Connection: keep-alive") = true := by
  refine ⟨rfl, rfl, rfl, rfl, rfl, rfl, rfl, rfl⟩

/-- C5 (code bug): `build_head_file` formats the Last-Modified value from
the CURRENT time, because the C call `get_time(_last_modified,
response->file_stat.st_mtime)` passes `st_mtime` as the buffer size
argument instead of formatting it.  At current time 111 and file mtime
222 the head says `Last-Modified: 111` and not 222. -/
theorem c5_last_modified_bug :
    containsSub (build_head_file toString 111 5 222 "text/html").1
        (String.toList "Last-Modified: 111\r\n") = true ∧
    containsSub (build_head_file toString 111 5 222 "text/html").1
        (String.toList "Last-Modified: 222") = false := by
  refine ⟨rfl, rfl⟩

/-! ## `src/platform/unix/transport.c`: `connection_establish_ssl`

The outcome of the `SSL_accept` call is abstracted: `ok` is a return of 1
(handshake complete); otherwise `SSL_get_error` classifies the failure as
`SSL_ERROR_WANT_READ`, `SSL_ERROR_WANT_WRITE`, or anything else. -/

inductive SSLAcceptResult where
  | ok
  | wantRead
  | wantWrite
  | fail
deriving Repr, DecidableEq

/-- `connection_establish_ssl` (transport.c lines 475-496): returns the new
`ssl_established` flag and the C return code.  Only `SSL_ERROR_WANT_READ`
is treated as in-progress success; `SSL_ERROR_WANT_WRITE` falls through to
the error return. -/
def connection_establish_ssl (hasSSL established : Bool)
    (accept : SSLAcceptResult) : Bool × Int :=
  if hasSSL = false then (established, 0)
  else
    match accept with
    | .ok => (true, 0)
    | .wantRead => (established, 0)
    | .wantWrite => (established, -1)
    | .fail => (established, -1)

/-- C6 counterexample: when the TLS layer reports want-write, the claim
says the function returns success with state unchanged, but the code
returns the error result. -/
theorem c6_counterexample :
    ¬ ((connection_establish_ssl true false SSLAcceptResult.wantWrite).2 = 0) := by
  decide

/-- C6 amended: on a TLS-enabled connection, `connection_establish_ssl`
returns success and sets `ssl_established := true` exactly when the
handshake completes; it returns success with the state unchanged only when
the TLS layer reports want-read; want-write and every other handshake
failure produce the error result with the state unchanged. -/
theorem c6_establish_tls (established : Bool) :
    connection_establish_ssl true established SSLAcceptResult.ok = (true, 0) ∧
    connection_establish_ssl true established SSLAcceptResult.wantRead = (established, 0) ∧
    connection_establish_ssl true established SSLAcceptResult.wantWrite = (established, -1) ∧
    connection_establish_ssl true established SSLAcceptResult.fail = (established, -1) := by
  cases established <;> exact ⟨rfl, rfl, rfl, rfl⟩

/-! ## `src/core/config.c`: the `max_job` computation (`config_get`) -/

/-- `config_get` line 124: the per-worker `max_job` is
`(_opts.max_conn / _opts.worker_cnt) + 1` (C integer division, i.e. floor). -/
def worker_max_job (max_conn worker_cnt : Nat) : Nat :=
  max_conn / worker_cnt + 1

/-- `config_get` line 118: the global `max_job` is `_opts.max_conn + 2`. -/
def global_max_job (max_conn : Nat) : Nat := max_conn + 2

/-- C8 counterexample: with max_conn = 5 and worker_count = 2 the code
computes 5 / 2 + 1 = 3 while the claimed ceiling formula gives
ceil(5/2) + 1 = 4. -/
theorem c8_counterexample :
    worker_max_job 5 2 = 3 ∧ (5 + 2 - 1) / 2 + 1 = 4 ∧
      worker_max_job 5 2 ≠ (5 + 2 - 1) / 2 + 1 := by
  decide

/-- C8 amended: for max_conn ≥ 1 and worker_count ≥ 1 the per-worker
`max_job` equals the FLOOR division `max_conn / worker_count` plus one
(which coincides with the claimed ceiling-plus-one only when worker_count
divides max_conn), the global `max_job` equals max_conn + 2, and the
combined worker capacity still exceeds max_conn. -/
theorem c8_max_job (max_conn worker_cnt : Nat) (hm : 0 < max_conn)
    (hw : 0 < worker_cnt) :
    worker_max_job max_conn worker_cnt = max_conn / worker_cnt + 1 ∧
    global_max_job max_conn = max_conn + 2 ∧
    max_conn + 1 ≤ worker_cnt * worker_max_job max_conn worker_cnt := by
  refine ⟨rfl, rfl, ?_⟩
  have h1 : worker_cnt * (max_conn / worker_cnt) + max_conn % worker_cnt = max_conn :=
    Nat.div_add_mod max_conn worker_cnt
  have h2 : max_conn % worker_cnt < worker_cnt := Nat.mod_lt max_conn hw
  unfold worker_max_job
  rw [Nat.mul_add, Nat.mul_one]
  omega

/-- Witness for C8 (amended) at max_conn = 5, worker_count = 2. -/
theorem c8_max_job_witness :
    worker_max_job 5 2 = 5 / 2 + 1 ∧ global_max_job 5 = 5 + 2 ∧
      5 + 1 ≤ 2 * worker_max_job 5 2 :=
  c8_max_job 5 2 (by decide) (by decide)

/-! ## `src/lib/objpool.c`: the object pool

Cells are identified by their index in the allocated block.  The intrusive
free list is the list of free cell indices in link order; `objpool_allocate`
threads the block in address order, `objpool_acquire` pops the head under
the mutex, `objpool_release` pushes the released cell at the head.  The
`held` component is the bookkeeping ghost: the multiset of cells currently
held by callers (the C pool itself does not track it). -/

structure Pool where
  free : List Nat
  held : List Nat
deriving Repr, DecidableEq

/-- `objpool_allocate(count, size)`: the whole block threaded into the free
list, nothing held. -/
def objpool_allocate (count : Nat) : Pool :=
  ⟨List.range count, []⟩

/-- `objpool_acquire`: pop the head of the free list; `none` when the list
is empty (never blocks, never allocates). -/
def objpool_acquire (p : Pool) : Option Nat × Pool :=
  match p.free with
  | [] => (none, p)
  | c :: rest => (some c, ⟨rest, c :: p.held⟩)

/-- `objpool_release`: push the cell back at the head of the free list. -/
def objpool_release (p : Pool) (c : Nat) : Pool :=
  ⟨c :: p.free, p.held.erase c⟩

/-- A client operation on the pool. -/
inductive PoolOp where
  | acq
  | rel (c : Nat)
deriving Repr, DecidableEq

/-- Run a sequence of operations. -/
def poolRun (p : Pool) : List PoolOp → Pool
  | [] => p
  | .acq :: ops => poolRun (objpool_acquire p).2 ops
  | .rel c :: ops => poolRun (objpool_release p c) ops

/-- Validity of a trace: only currently-held cells are released (no
double release, no release of a foreign pointer). -/
def validOps (p : Pool) : List PoolOp → Bool
  | [] => true
  | .acq :: ops => validOps (objpool_acquire p).2 ops
  | .rel c :: ops => p.held.contains c && validOps (objpool_release p c) ops

/-- The number of successful acquires along a trace. -/
def nAcquired (p : Pool) : List PoolOp → Nat
  | [] => 0
  | .acq :: ops =>
    (if p.free.isEmpty then 0 else 1) + nAcquired (objpool_acquire p).2 ops
  | .rel c :: ops => nAcquired (objpool_release p c) ops

/-- The number of releases in a trace. -/
def nReleased : List PoolOp → Nat
  | [] => 0
  | .acq :: ops => nReleased ops
  | .rel _ :: ops => nReleased ops + 1

/-- The pool invariant: the free cells followed by the held cells are a
permutation of all `count` cells — every cell is in exactly one place. -/
def PoolInv (count : Nat) (p : Pool) : Prop :=
  (p.free ++ p.held).Perm (List.range count)

theorem poolRun_inv (count : Nat) :
    ∀ (ops : List PoolOp) (p : Pool), PoolInv count p → validOps p ops = true →
      PoolInv count (poolRun p ops) ∧
        (poolRun p ops).held.length + nReleased ops =
          p.held.length + nAcquired p ops := by
  intro ops
  induction ops with
  | nil => intro p hinv _; exact ⟨hinv, by simp [poolRun, nAcquired, nReleased]⟩
  | cons op ops ih =>
    intro p hinv hval
    cases op with
    | acq =>
      simp only [poolRun, nAcquired, nReleased, validOps] at *
      cases hfree : p.free with
      | nil =>
        have hp : (objpool_acquire p).2 = p := by
          simp [objpool_acquire, hfree]
        rw [hp] at hval ⊢
        have := ih p hinv hval
        simp [hfree, this.2]
        exact this.1
      | cons c rest =>
        have hp : (objpool_acquire p).2 = ⟨rest, c :: p.held⟩ := by
          simp [objpool_acquire, hfree]
        rw [hp] at hval ⊢
        have hinv' : PoolInv count ⟨rest, c :: p.held⟩ := by
          unfold PoolInv at hinv ⊢
          refine List.Perm.trans ?_ hinv
          rw [hfree]
          simp only [List.cons_append]
          exact List.perm_middle
        have := ih _ hinv' hval
        refine ⟨this.1, ?_⟩
        have h2 := this.2
        have hlc : (Pool.mk rest (c :: p.held)).held.length = p.held.length + 1 := by
          simp
        simp [hfree]
        omega
    | rel c =>
      simp only [poolRun, nAcquired, nReleased, validOps, Bool.and_eq_true] at *
      obtain ⟨hmem, hval⟩ := hval
      have hmem' : c ∈ p.held := by simpa using hmem
      have hinv' : PoolInv count (objpool_release p c) := by
        unfold PoolInv at hinv ⊢
        unfold objpool_release
        refine List.Perm.trans ?_ hinv
        simp only [List.cons_append]
        refine List.Perm.trans List.perm_middle.symm ?_
        exact List.Perm.append_left p.free (List.perm_cons_erase hmem').symm
      have := ih _ hinv' hval
      refine ⟨this.1, ?_⟩
      have h2 := this.2
      have hlen : (p.held.erase c).length + 1 = p.held.length := by
        rw [List.length_erase_of_mem hmem']
        have : 0 < p.held.length := List.length_pos.mpr (List.ne_nil_of_mem hmem')
        omega
      have h3 : (objpool_release p c).held = p.held.erase c := rfl
      rw [h3] at h2
      omega

/-- C9: after `objpool_allocate count`, along any acquire/release sequence
in which only held cells are released (no double release): acquire returns
`none` exactly when all `count` cells are held; the free and held cells
together are a permutation of all cells (each cell in exactly one place);
the number of held cells equals successful acquires minus releases; and a
released cell is immediately reacquirable. -/
theorem c9_pool_conservation (count : Nat) (ops : List PoolOp)
    (hval : validOps (objpool_allocate count) ops = true) :
    ((objpool_acquire (poolRun (objpool_allocate count) ops)).1 = none ↔
      (poolRun (objpool_allocate count) ops).held.length = count) ∧
    ((poolRun (objpool_allocate count) ops).free ++
        (poolRun (objpool_allocate count) ops).held).Perm (List.range count) ∧
    (poolRun (objpool_allocate count) ops).held.length + nReleased ops =
      nAcquired (objpool_allocate count) ops ∧
    (∀ c, c ∈ (poolRun (objpool_allocate count) ops).held →
      (objpool_acquire (objpool_release (poolRun (objpool_allocate count) ops) c)).1 =
        some c) := by
  have hinv0 : PoolInv count (objpool_allocate count) := by
    unfold PoolInv objpool_allocate
    simp
  obtain ⟨hinv, hlen⟩ := poolRun_inv count ops (objpool_allocate count) hinv0 hval
  have hsum : (poolRun (objpool_allocate count) ops).free.length +
      (poolRun (objpool_allocate count) ops).held.length = count := by
    have := hinv.length_eq
    simpa using this
  refine ⟨?_, hinv, ?_, ?_⟩
  · constructor
    · intro h
      cases hfree : (poolRun (objpool_allocate count) ops).free with
      | nil => rw [hfree] at hsum; simpa using hsum
      | cons c rest =>
        exfalso
        unfold objpool_acquire at h
        rw [hfree] at h
        simp at h
    · intro h
      have hfree0 : (poolRun (objpool_allocate count) ops).free.length = 0 := by omega
      unfold objpool_acquire
      rw [List.length_eq_zero.mp hfree0]
  · simpa [objpool_allocate] using hlen
  · intro c _
    simp [objpool_release, objpool_acquire]

/-- A concrete trace for the C9 witness: two acquires exhaust a two-cell
pool, a third acquire returns none, cell 0 is released and reacquired. -/
def opsC9 : List PoolOp :=
  [PoolOp.acq, PoolOp.acq, PoolOp.acq, PoolOp.rel 0, PoolOp.acq]

/-- Witness for C9 at a concrete trace: held = acquired - released. -/
theorem c9_pool_conservation_witness :
    (poolRun (objpool_allocate 2) opsC9).held.length + nReleased opsC9 =
      nAcquired (objpool_allocate 2) opsC9 :=
  (c9_pool_conservation 2 opsC9 (by decide)).2.2.1

/-! ## `src/core/job.c`: `job_write` and `src/platform/unix/transport.c`:
`connection_send`

A send syscall outcome is abstracted: `chunk n` is a return of `n` bytes
(`0` meaning the peer-closed return that breaks the loop), `wouldBlock`
is EAGAIN/EWOULDBLOCK (or `SSL_ERROR_WANT_WRITE`), `fail` any other error.
`connection_sendfile` (kernel or buffered strategy) is modelled by the
same partial-progress loop over its own trace. -/

inductive SendEv where
  | chunk (n : Nat)
  | wouldBlock
  | fail
deriving Repr, DecidableEq

/-- `connection_send` (transport.c lines 577-623): loop while `sent < size`;
positive returns advance `sent` (never past `size`), a zero return or
would-block breaks with success, any other error returns -1.  An exhausted
trace behaves like would-block. -/
def connection_send (size : Nat) : Nat → List SendEv → Int × Nat
  | sent, [] => (0, sent)
  | sent, e :: tr =>
    if sent < size then
      match e with
      | .chunk n =>
        if n = 0 then (0, sent)
        else connection_send size (min (sent + n) size) tr
      | .wouldBlock => (0, sent)
      | .fail => (-1, sent)
    else (0, sent)

/-- The job's send-progress counters. -/
structure JobSt where
  sent_head : Nat
  sent_body : Nat
  sent_file : Nat
deriving Repr, DecidableEq

/-- `job_write` from job.c (lines 151-191): send the head, then the file
(for a `File` response) or the body, failing whenever a send errors or a
cumulative counter is still zero; finally report -1 when `should_close`
is set. -/
def job_write (r : Resp) (j : JobSt) (trH trB trF : List SendEv) : Int × JobSt :=
  let h := connection_send r.headLen j.sent_head trH
  let j1 : JobSt := { j with sent_head := h.2 }
  if h.1 = -1 ∨ h.2 = 0 then (-1, j1)
  else if r.rtype = RType.file then
    let f := connection_send r.fileSize j1.sent_file trF
    let j2 : JobSt := { j1 with sent_file := f.2 }
    if f.1 = -1 ∨ f.2 = 0 then (-1, j2)
    else if r.shouldClose then (-1, j2) else (0, j2)
  else
    let bo := connection_send r.bodyLen j1.sent_body trB
    let j2 : JobSt := { j1 with sent_body := bo.2 }
    if bo.1 = -1 ∨ bo.2 = 0 then (-1, j2)
    else if r.shouldClose then (-1, j2) else (0, j2)

/-- C10: `job_write` returns the error result whenever the head send
completes with `sent_head` still zero (even when `connection_send`
reported success, e.g. an immediate would-block); the same
zero-progress-means-error rule applies to the file send (`sent_file = 0`
on a `File` response) and to the body send (`sent_body = 0` otherwise). -/
theorem c10_zero_progress_error (r : Resp) (j : JobSt)
    (trH trB trF : List SendEv) :
    ((connection_send r.headLen j.sent_head trH).2 = 0 →
      (job_write r j trH trB trF).1 = -1) ∧
    (r.rtype = RType.file →
      (connection_send r.fileSize j.sent_file trF).2 = 0 →
      (job_write r j trH trB trF).1 = -1) ∧
    (r.rtype ≠ RType.file →
      (connection_send r.bodyLen j.sent_body trB).2 = 0 →
      (job_write r j trH trB trF).1 = -1) := by
  refine ⟨?_, ?_, ?_⟩
  · intro h0
    simp [job_write, h0]
  · intro hty h0
    by_cases hh : (connection_send r.headLen j.sent_head trH).1 = -1 ∨
        (connection_send r.headLen j.sent_head trH).2 = 0
    · simp [job_write, hh]
    · simp [job_write, hh, hty, h0]
  · intro hty h0
    by_cases hh : (connection_send r.headLen j.sent_head trH).1 = -1 ∨
        (connection_send r.headLen j.sent_head trH).2 = 0
    · simp [job_write, hh]
    · simp [job_write, hh, hty, h0]

/-- A concrete response for the C10 witness: a plain string response with a
5-byte head. -/
def respC10 : Resp :=
  { rtype := RType.str, head := [], headLen := 5, body := [], bodyLen := 3
    fileSize := 0, shouldClose := false, ret := 0 }

/-- Witness for C10 at a concrete input: the socket would block before any
head byte is written, so `job_write` returns the error result. -/
theorem c10_zero_progress_error_witness :
    (job_write respC10 ⟨0, 0, 0⟩ [SendEv.wouldBlock] [] []).1 = -1 :=
  (c10_zero_progress_error respC10 ⟨0, 0, 0⟩ [SendEv.wouldBlock] [] []).1 rfl
